import Mathlib

set_option maxRecDepth 10000

/- Verification of the Instagram media-extraction service in src/main.py
   (Singgihasu API).  The endpoint logic, the three regular expressions it
   scans with, and the string decoding steps are embedded shallowly below;
   Python `re` matching is modelled by continuation-passing backtracking
   matchers with the same priority order (leftmost position first, greedy
   repetition longest-first, alternatives left to right). -/

/-- Matchers consume a list of characters and produce a result on success:
`Matcher α = List Char → Option α`.  Combinators are continuation-passing so
that alternation (`<|>`) and greedy repetition backtrack in the same priority
order as Python `re`. -/
def Matcher (α : Type) : Type := List Char → Option α

/-- Case-sensitive literal text. -/
def litc {α : Type} : List Char → Matcher α → Matcher α
  | [], k => k
  | p :: ps, k => fun cs =>
    match cs with
    | [] => none
    | c :: cs' => if c = p then litc ps k cs' else none

/-- Case-insensitive literal text (Python `re.IGNORECASE`, ASCII letters). -/
def litCI {α : Type} : List Char → Matcher α → Matcher α
  | [], k => k
  | p :: ps, k => fun cs =>
    match cs with
    | [] => none
    | c :: cs' => if c.toLower = p.toLower then litCI ps k cs' else none

/-- Single character of a class. -/
def clsM {α : Type} (p : Char → Bool) (k : Matcher α) : Matcher α := fun cs =>
  match cs with
  | [] => none
  | c :: cs' => if p c then k cs' else none

/-- Greedy `p*`: consume as many class characters as possible, backtracking
into the continuation from the longest prefix first. -/
def starCls {α : Type} (p : Char → Bool) (k : Matcher α) : List Char → Option α
  | [] => k []
  | c :: cs => (if p c then starCls p k cs else none) <|> k (c :: cs)

/-- Greedy `p+`. -/
def plusCls {α : Type} (p : Char → Bool) (k : Matcher α) : Matcher α := fun cs =>
  match cs with
  | [] => none
  | c :: cs' => if p c then starCls p k cs' else none

/-- Greedy capturing `p*`; the continuation receives the captured characters. -/
def starCap {α : Type} (p : Char → Bool) (k : List Char → Matcher α) :
    List Char → List Char → Option α
  | acc, [] => k acc.reverse []
  | acc, c :: cs =>
    (if p c then starCap p k (c :: acc) cs else none) <|> k acc.reverse (c :: cs)

/-- Greedy capturing `p+` (a regex capture group `(p+)`). -/
def plusCap {α : Type} (p : Char → Bool) (k : List Char → Matcher α) : Matcher α := fun cs =>
  match cs with
  | [] => none
  | c :: cs' => if p c then starCap p k [c] cs' else none

/-- Python `re.findall`/`re.finditer`: try the matcher at every position from
left to right; on a match, emit it and continue right after the matched text.
The fuel argument only bounds the recursion; every step consumes at least one
character (none of the embedded patterns matches the empty string), so fuel
`length + 1` is never exhausted. -/
def findAllAux {α : Type} (m : List Char → Option (α × List Char)) :
    Nat → List Char → List α
  | 0, _ => []
  | fuel + 1, cs =>
    match m cs with
    | some (a, rest) => a :: findAllAux m fuel rest
    | none =>
      match cs with
      | [] => []
      | _ :: cs' => findAllAux m fuel cs'

def findAll {α : Type} (m : List Char → Option (α × List Char)) (s : String) : List α :=
  findAllAux m (s.data.length + 1) s.data

def isQuoteCh (c : Char) : Bool := c = '"' || c = '\''

def notQuoteCh (c : Char) : Bool := !(c = '"' || c = '\'')

def notGtCh (c : Char) : Bool := !(c = '>')

def notDqCh (c : Char) : Bool := !(c = '"')

/-- One attempt, at the current position, to match the meta-tag pattern of
src/main.py (lines 90 and 95), compiled with `re.IGNORECASE`:

  `<meta[^>]+ATTR=["\']([^"\']+)["\'][^>]+content=["\']([^"\']+)["\'][^>]*>`

where `ATTR` is `property` (line 90) or `name` (line 95); the two compiled
patterns differ only in that literal, so it is a parameter here.  On success
the two captured groups and the input remaining after the match are
returned. -/
def metaTagAt (attr : List Char) : Matcher ((String × String) × List Char) :=
  litCI "<meta".data
    (plusCls notGtCh
      (litCI attr
        (clsM isQuoteCh
          (plusCap notQuoteCh (fun g1 =>
            clsM isQuoteCh
              (plusCls notGtCh
                (litCI "content=".data
                  (clsM isQuoteCh
                    (plusCap notQuoteCh (fun g2 =>
                      clsM isQuoteCh
                        (starCls notGtCh
                          (litCI ">".data
                            (fun rest => some ((String.mk g1, String.mk g2), rest))))))))))))))

/-- Tail of the inline-JSON value after the `http` literal: matches
`:\/\/[^"]+` (the `:` then literal backslash-slash pairs), passing the full
captured group-2 text (starting from `pre`, which is `http` or `https`) to the
continuation. -/
def inlineValTail {α : Type} (pre : List Char) (k : List Char → Matcher α) : Matcher α :=
  litc ":\\/\\/".data (plusCap notDqCh (fun v => k (pre ++ ":\\/\\/".data ++ v)))

/-- The group-2 sub-pattern `(https?:\\/\\/[^"]+)` of line 140: `http`, then a
greedily-optional `s` (tried first, as Python does), then the escaped-slash
tail. -/
def inlineG2 {α : Type} (k : List Char → Matcher α) : Matcher α :=
  litc "http".data (fun cs =>
    match cs with
    | 's' :: cs' => inlineValTail "https".data k cs' <|> inlineValTail "http".data k cs
    | _ => inlineValTail "http".data k cs)

/-- The group-1 alternation `(video_url|display_url)`, alternatives tried left
to right. -/
def inlineKey {α : Type} (k : String → Matcher α) : Matcher α := fun cs =>
  litc "video_url".data (k "video_url") cs <|> litc "display_url".data (k "display_url") cs

/-- One attempt, at the current position, to match the inline-JSON pattern of
src/main.py line 140 (no IGNORECASE):

  `"(video_url|display_url)":"(https?:\\/\\/[^"]+)"`

returning `((group1, group2), rest)`. -/
def inlineJsonAt : Matcher ((String × String) × List Char) :=
  litc "\"".data
    (inlineKey (fun g1 =>
      litc "\":\"".data
        (inlineG2 (fun g2 =>
          litc "\"".data (fun rest => some ((g1, String.mk g2), rest))))))

/-- `re.findall` of the meta-tag pattern with the given attribute literal. -/
def metaFindall (attr : List Char) (html : String) : List (String × String) :=
  findAll (metaTagAt attr) html

/-- `re.finditer` of the inline-JSON pattern (line 140), as the list of
captured group pairs in document order. -/
def inlineFindall (html : String) : List (String × String) :=
  findAll inlineJsonAt html

/-- Python `str.lower()` restricted to ASCII (all keys scanned here are
ASCII). -/
def asciiLower (s : String) : String := String.mk (s.data.map Char.toLower)

def isDecDigitCh (c : Char) : Bool := '0' ≤ c && c ≤ '9'

def isHexDigitCh (c : Char) : Bool :=
  ('0' ≤ c && c ≤ '9') || ('a' ≤ c && c ≤ 'f') || ('A' ≤ c && c ≤ 'F')

def hexDigitVal (c : Char) : Nat :=
  if c ≤ '9' then c.toNat - 48 else if c ≤ 'F' then c.toNat - 55 else c.toNat - 87

def decOfDigits (ds : List Char) : Nat := ds.foldl (fun n c => 10 * n + (c.toNat - 48)) 0

def hexOfDigits (ds : List Char) : Nat := ds.foldl (fun n c => 16 * n + hexDigitVal c) 0

/-- Numeric character reference resolution: code point 0, surrogates and
out-of-range values become U+FFFD (the windows-1252 remapping table of the
Python stdlib for a few historic code points is not reproduced; no claim
exercises it). -/
def charRef (n : Nat) : Char :=
  if n = 0 || n > 1114111 || (55296 ≤ n && n ≤ 57343) then '�' else Char.ofNat n

/-- Worker for `htmlUnescape`; fuel-driven, each step consumes at least one
character so fuel `length` suffices. -/
def htmlUnescapeAux : Nat → List Char → List Char
  | 0, cs => cs
  | _ + 1, [] => []
  | fuel + 1, '&' :: rest =>
    match rest with
    | '#' :: 'x' :: t =>
      (let ds := t.takeWhile isHexDigitCh
       if ds.isEmpty then '&' :: htmlUnescapeAux fuel rest
       else
         match t.dropWhile isHexDigitCh with
         | ';' :: t3 => charRef (hexOfDigits ds) :: htmlUnescapeAux fuel t3
         | t2 => charRef (hexOfDigits ds) :: htmlUnescapeAux fuel t2)
    | '#' :: 'X' :: t =>
      (let ds := t.takeWhile isHexDigitCh
       if ds.isEmpty then '&' :: htmlUnescapeAux fuel rest
       else
         match t.dropWhile isHexDigitCh with
         | ';' :: t3 => charRef (hexOfDigits ds) :: htmlUnescapeAux fuel t3
         | t2 => charRef (hexOfDigits ds) :: htmlUnescapeAux fuel t2)
    | '#' :: t =>
      (let ds := t.takeWhile isDecDigitCh
       if ds.isEmpty then '&' :: htmlUnescapeAux fuel rest
       else
         match t.dropWhile isDecDigitCh with
         | ';' :: t3 => charRef (decOfDigits ds) :: htmlUnescapeAux fuel t3
         | t2 => charRef (decOfDigits ds) :: htmlUnescapeAux fuel t2)
    | 'a' :: 'm' :: 'p' :: ';' :: t => '&' :: htmlUnescapeAux fuel t
    | 'a' :: 'm' :: 'p' :: t => '&' :: htmlUnescapeAux fuel t
    | 'l' :: 't' :: ';' :: t => '<' :: htmlUnescapeAux fuel t
    | 'l' :: 't' :: t => '<' :: htmlUnescapeAux fuel t
    | 'g' :: 't' :: ';' :: t => '>' :: htmlUnescapeAux fuel t
    | 'g' :: 't' :: t => '>' :: htmlUnescapeAux fuel t
    | 'q' :: 'u' :: 'o' :: 't' :: ';' :: t => '"' :: htmlUnescapeAux fuel t
    | 'q' :: 'u' :: 'o' :: 't' :: t => '"' :: htmlUnescapeAux fuel t
    | 'a' :: 'p' :: 'o' :: 's' :: ';' :: t => '\'' :: htmlUnescapeAux fuel t
    | _ => '&' :: htmlUnescapeAux fuel rest
  | fuel + 1, c :: rest => c :: htmlUnescapeAux fuel rest

/-- Models Python `html.unescape` (src/main.py line 8) for numeric character
references (decimal and hexadecimal, semicolon optional) and the basic named
entities `amp`, `lt`, `gt`, `quot` (semicolon optional, as in the legacy
entity set) and `apos;`.  The full HTML5 named-entity table of the stdlib is
not reproduced; no claim exercises entities outside this set. -/
def htmlUnescape (s : String) : String :=
  String.mk (htmlUnescapeAux (s.data.length + 1) s.data)

/-- UTF-8 encoding of one character, as a list of byte values
(`str.encode('utf-8')`). -/
def utf8Bytes (c : Char) : List Nat :=
  let n := c.toNat
  if n < 128 then [n]
  else if n < 2048 then [192 ||| (n >>> 6), 128 ||| (n &&& 63)]
  else if n < 65536 then
    [224 ||| (n >>> 12), 128 ||| ((n >>> 6) &&& 63), 128 ||| (n &&& 63)]
  else
    [240 ||| (n >>> 18), 128 ||| ((n >>> 12) &&& 63),
     128 ||| ((n >>> 6) &&& 63), 128 ||| (n &&& 63)]

def strBytes (s : String) : List Nat := s.data.foldr (fun c acc => utf8Bytes c ++ acc) []

def isHexB (b : Nat) : Bool := (48 ≤ b && b ≤ 57) || (97 ≤ b && b ≤ 102) || (65 ≤ b && b ≤ 70)

def hexValB (b : Nat) : Nat := if b ≤ 57 then b - 48 else if b ≤ 70 then b - 55 else b - 87

def isOctB (b : Nat) : Bool := 48 ≤ b && b ≤ 55

/-- A byte read back as a character (how `unicode_escape` treats ordinary
bytes, i.e. latin-1). -/
def latin1 (b : Nat) : Char := Char.ofNat b

/-- Models Python `bytes.decode('unicode_escape')` over a byte list: ordinary
bytes are read as latin-1; a backslash introduces the CPython escape table
(`\\ \' \" \a \b \f \n \r \t \v`, backslash-newline, up to three octal digits,
`\xHH`, `\uXXXX`, `\UXXXXXXXX`); an unrecognised escape keeps the backslash
and the following byte verbatim (this is what happens to the `\/` sequences of
Instagram JSON).  `\N{name}` lookups and the error raised on malformed
`\x`/`\u`/`\U` escapes are not modelled (treated verbatim); no claim exercises
them.  Fuel-driven: every step consumes at least one byte, so fuel
`length + 1` is never exhausted. -/
def pyUnicodeEscapeAux : Nat → List Nat → List Char
  | 0, _ => []
  | _ + 1, [] => []
  | fuel + 1, 92 :: rest =>
    (match rest with
     | [] => ['\\']
     | 10 :: t => pyUnicodeEscapeAux fuel t
     | 92 :: t => '\\' :: pyUnicodeEscapeAux fuel t
     | 39 :: t => '\'' :: pyUnicodeEscapeAux fuel t
     | 34 :: t => '"' :: pyUnicodeEscapeAux fuel t
     | 97 :: t => Char.ofNat 7 :: pyUnicodeEscapeAux fuel t
     | 98 :: t => Char.ofNat 8 :: pyUnicodeEscapeAux fuel t
     | 102 :: t => Char.ofNat 12 :: pyUnicodeEscapeAux fuel t
     | 110 :: t => '\n' :: pyUnicodeEscapeAux fuel t
     | 114 :: t => '\r' :: pyUnicodeEscapeAux fuel t
     | 116 :: t => '\t' :: pyUnicodeEscapeAux fuel t
     | 118 :: t => Char.ofNat 11 :: pyUnicodeEscapeAux fuel t
     | 120 :: t =>
       (match t with
        | h1 :: h2 :: t2 =>
          if isHexB h1 && isHexB h2 then
            Char.ofNat (16 * hexValB h1 + hexValB h2) :: pyUnicodeEscapeAux fuel t2
          else '\\' :: 'x' :: pyUnicodeEscapeAux fuel t
        | _ => '\\' :: 'x' :: pyUnicodeEscapeAux fuel t)
     | 117 :: t =>
       (match t with
        | h1 :: h2 :: h3 :: h4 :: t2 =>
          if isHexB h1 && isHexB h2 && isHexB h3 && isHexB h4 then
            Char.ofNat (4096 * hexValB h1 + 256 * hexValB h2 + 16 * hexValB h3 + hexValB h4) ::
              pyUnicodeEscapeAux fuel t2
          else '\\' :: 'u' :: pyUnicodeEscapeAux fuel t
        | _ => '\\' :: 'u' :: pyUnicodeEscapeAux fuel t)
     | 85 :: t =>
       (match t with
        | h1 :: h2 :: h3 :: h4 :: h5 :: h6 :: h7 :: h8 :: t2 =>
          if isHexB h1 && isHexB h2 && isHexB h3 && isHexB h4 &&
             isHexB h5 && isHexB h6 && isHexB h7 && isHexB h8 then
            Char.ofNat
              (268435456 * hexValB h1 + 16777216 * hexValB h2 + 1048576 * hexValB h3 +
               65536 * hexValB h4 + 4096 * hexValB h5 + 256 * hexValB h6 +
               16 * hexValB h7 + hexValB h8) :: pyUnicodeEscapeAux fuel t2
          else '\\' :: 'U' :: pyUnicodeEscapeAux fuel t
        | _ => '\\' :: 'U' :: pyUnicodeEscapeAux fuel t)
     | b :: t =>
       if isOctB b then
         match t with
         | b2 :: t2 =>
           if isOctB b2 then
             match t2 with
             | b3 :: t3 =>
               if isOctB b3 then
                 Char.ofNat (64 * (b - 48) + 8 * (b2 - 48) + (b3 - 48)) ::
                   pyUnicodeEscapeAux fuel t3
               else Char.ofNat (8 * (b - 48) + (b2 - 48)) :: pyUnicodeEscapeAux fuel t2
             | [] => [Char.ofNat (8 * (b - 48) + (b2 - 48))]
           else Char.ofNat (b - 48) :: pyUnicodeEscapeAux fuel t
         | [] => [Char.ofNat (b - 48)]
       else '\\' :: latin1 b :: pyUnicodeEscapeAux fuel t)
  | fuel + 1, b :: rest => latin1 b :: pyUnicodeEscapeAux fuel rest

def pyUnicodeEscape (bs : List Nat) : List Char := pyUnicodeEscapeAux (bs.length + 1) bs

/-- Python `str.replace('\\/', '/')`: replace every (leftmost-first,
non-overlapping) backslash-slash pair by a slash. -/
def replaceEscSlash : List Char → List Char
  | [] => []
  | '\\' :: '/' :: rest => '/' :: replaceEscSlash rest
  | c :: rest => c :: replaceEscSlash rest

/-- Models src/main.py lines 142-143 applied to a captured group-2 value:
`raw.encode('utf-8').decode('unicode_escape')` followed by
`.replace('\\/', '/')`. -/
def decodeInline (raw : String) : String :=
  String.mk (replaceEscSlash (pyUnicodeEscape (strBytes raw)))

/-- Python dict assignment `d[k] = v`: overwrite in place if the key exists,
otherwise append (insertion order preserved). -/
def dictInsert : List (String × String) → String → String → List (String × String)
  | [], k, v => [(k, v)]
  | (k', v') :: rest, k, v =>
    if k' = k then (k, v) :: rest else (k', v') :: dictInsert rest k v

/-- Python `d.get(k)`. -/
def dictGet : List (String × String) → String → Option String
  | [], _ => none
  | (k', v') :: rest, k => if k' = k then some v' else dictGet rest k

/-- src/main.py lines 88-98 `extract_meta_tags`: run the `property` pattern
scan, inserting `tags[prop.lower()] = unescape(content)` for each match, then
the `name` pattern scan likewise, into the same dict. -/
def extract_meta_tags (html : String) : List (String × String) :=
  let tags := (metaFindall "property=".data html).foldl
    (fun t pc => dictInsert t (asciiLower pc.1) (htmlUnescape pc.2)) []
  (metaFindall "name=".data html).foldl
    (fun t pc => dictInsert t (asciiLower pc.1) (htmlUnescape pc.2)) tags

/-- The character class `[A-Za-z0-9_-]` of the URL pattern. -/
def isIdChar (c : Char) : Bool := c.isAlpha || c.isDigit || c = '_' || c = '-'

/-- Boolean literal matcher (case-sensitive: the URL pattern is compiled
without IGNORECASE). -/
def litB : List Char → (List Char → Bool) → List Char → Bool
  | [], k, cs => k cs
  | p :: ps, k, cs =>
    match cs with
    | [] => false
    | c :: cs' => if c = p then litB ps k cs' else false

/-- Greedy boolean `p*` with backtracking. -/
def starB (p : Char → Bool) (k : List Char → Bool) : List Char → Bool
  | [] => k []
  | c :: cs => (if p c then starB p k cs else false) || k (c :: cs)

/-- Greedy boolean `p+`. -/
def plusB (p : Char → Bool) (k : List Char → Bool) : List Char → Bool := fun cs =>
  match cs with
  | [] => false
  | c :: cs' => if p c then starB p k cs' else false

/-- End of pattern under `re.match`: a prefix match, any remaining input is
accepted. -/
def epsB : List Char → Bool := fun _ => true

/-- Optional literal `(s)?`, tried greedily first. -/
def optLitB (s : List Char) (k : List Char → Bool) : List Char → Bool := fun cs =>
  litB s k cs || k cs

/-- The pattern tail `/[A-Za-z0-9_-]+/?` after the section alternation. -/
def igAfterSec : List Char → Bool :=
  litB "/".data (plusB isIdChar (optLitB "/".data epsB))

/-- The section alternation `(p|reel|reels|tv)` followed by the identifier
tail, alternatives tried left to right with backtracking. -/
def igSecAlt (cs : List Char) : Bool :=
  litB "p".data igAfterSec cs || litB "reel".data igAfterSec cs ||
    litB "reels".data igAfterSec cs || litB "tv".data igAfterSec cs

/-- The pattern from `(www\.)?` on: optional `www.`, the literal host
`instagram.com/`, then the section alternation. -/
def igAfterScheme : List Char → Bool :=
  optLitB "www.".data (litB "instagram.com/".data igSecAlt)

/-- Shallow embedding of src/main.py line 85,

  `INSTAGRAM_URL_RE = re.compile(r"^(https?://)?(www\.)?instagram\.com/(p|reel|reels|tv)/[A-Za-z0-9_-]+/?")`

under `.match` (anchored at the start, prefix match: trailing text is
tolerated).  The optional scheme group `(https?://)?` is flattened into its
two literal alternatives, greedy first (`https://`, then `http://`, then
absent), exactly the backtracking order of the original group.  No IGNORECASE
flag is present in the source, so matching is case-sensitive. -/
def igMatchList (cs : List Char) : Bool :=
  litB "https://".data igAfterScheme cs || litB "http://".data igAfterScheme cs ||
    igAfterScheme cs

def INSTAGRAM_URL_RE_match (url : String) : Bool := igMatchList url.data

/-- src/main.py lines 25-28 `MediaItem` (URLs kept as plain strings: the
pydantic `HttpUrl` wrapper adds no structure relevant to the claims). -/
structure MediaItem where
  type : String
  url : String
  thumbnail : Option String
deriving DecidableEq

/-- Python truthiness of an optional string: `None` and `""` are falsy. -/
def truthy : Option String → Bool
  | none => false
  | some s => s != ""

/-- Python `a or b` on optional strings: `a` if truthy, else `b`. -/
def pyOr (a b : Option String) : Option String := if truthy a then a else b

/-- Line 126: `tags.get("og:video") or tags.get("twitter:player:stream")`. -/
def og_videoOf (tags : List (String × String)) : Option String :=
  pyOr (dictGet tags "og:video") (dictGet tags "twitter:player:stream")

/-- Line 127: `tags.get("og:image") or tags.get("twitter:image")`. -/
def og_imageOf (tags : List (String × String)) : Option String :=
  pyOr (dictGet tags "og:image") (dictGet tags "twitter:image")

/-- src/main.py lines 123-136: the media list as it stands before the
inline-JSON scan — the primary video item if `og_video` is truthy, else the
primary image item if `og_image` is truthy and the list is still empty. -/
def primaryMedia (tags : List (String × String)) : List MediaItem :=
  let og_video := og_videoOf tags
  let og_image := og_imageOf tags
  let media : List MediaItem :=
    if truthy og_video then [⟨"video", og_video.getD "", og_image⟩] else []
  if truthy og_image && media.isEmpty then
    media ++ [⟨"image", og_image.getD "", og_image⟩]
  else media

/-- src/main.py lines 140-149, the body of the `finditer` loop for one match
`kc = (kind, raw group 2)`: decode the value, then append a video item
(thumbnail = `og_image`) or an image item (thumbnail = the value itself)
unless some already-collected item has exactly that url. -/
def inlineStep (og_image : Option String) (media : List MediaItem) (kc : String × String) :
    List MediaItem :=
  let candidate := decodeInline kc.2
  if kc.1 = "video_url" then
    if media.all (fun x => x.url != candidate) then
      media ++ [⟨"video", candidate, og_image⟩]
    else media
  else
    if media.all (fun x => x.url != candidate) then
      media ++ [⟨"image", candidate, some candidate⟩]
    else media

/-- src/main.py lines 123-149: the full assembled media list for the given
extracted tags and raw HTML. -/
def assembleMedia (tags : List (String × String)) (html : String) : List MediaItem :=
  (inlineFindall html).foldl (inlineStep (og_imageOf tags)) (primaryMedia tags)

/-- Outcome of the single `requests.get` call (line 113): a response with a
status code and text body, or a transport failure
(`requests.RequestException`). -/
inductive FetchOutcome
  | success (status : Nat) (body : String)
  | failure
deriving DecidableEq

/-- Result of the endpoint: the 200 payload, or an `HTTPException` with status
code and detail message. -/
inductive InspectResult
  | ok (items : List MediaItem)
  | error (status : Nat) (detail : String)
deriving DecidableEq

/-- src/main.py lines 101-155 `instagram_inspect`: URL validation, then the
fetch outcome (passed in as a parameter: the network is external), the
status-code gate (`resp.status_code != 200`), extraction, assembly, and the
empty-list check.  The pydantic `HttpUrl` parsing of the request body happens
in the transport adapter before this function and is not modelled. -/
def instagram_inspect (url : String) (fetch : FetchOutcome) : InspectResult :=
  if !(INSTAGRAM_URL_RE_match url) then
    .error 400 "Please provide a valid Instagram post/reel URL."
  else
    match fetch with
    | .failure => .error 502 "Failed to fetch the Instagram page."
    | .success status body =>
      if status ≠ 200 then .error status "Instagram responded with an error."
      else if assembleMedia (extract_meta_tags body) body = [] then
        .error 422 "Could not extract media from this URL. It may be private or blocked."
      else .ok (assembleMedia (extract_meta_tags body) body)

/-- Modelled from the claim's words (claim C4): the Instagram post/reel shape
tested "regardless of letter case" — a string is in the claimed accepted set
iff its ASCII lower-casing matches the (all lower-case) URL pattern. -/
def urlShapeCaseInsensitive (s : String) : Bool := igMatchList (asciiLower s).data

/- ------------------------------------------------------------------ -/
/- Helper lemmas about the URL matcher.                               -/
/- ------------------------------------------------------------------ -/

theorem litB_append (s : List Char) (k : List Char → Bool) (rest : List Char) :
    litB s k (s ++ rest) = k rest := by
  induction s with
  | nil => rfl
  | cons c cs ih => simp [litB, ih]

theorem starB_of_true (p : Char → Bool) (k : List Char → Bool) (hk : ∀ cs, k cs = true) :
    ∀ cs, starB p k cs = true := by
  intro cs
  induction cs with
  | nil => simp [starB, hk]
  | cons c cs ih => simp [starB, hk, ih]

theorem bor_left {a b : Bool} (h : a = true) : (a || b) = true := by simp [h]

theorem bor_right {a b : Bool} (h : b = true) : (a || b) = true := by simp [h]

theorem idTail_true (c : Char) (hc : isIdChar c = true) (rest : List Char) :
    plusB isIdChar (optLitB "/".data epsB) (c :: rest) = true := by
  have hk : ∀ cs, optLitB "/".data epsB cs = true := by
    intro cs; simp [optLitB, epsB]
  simp [plusB, hc, starB_of_true _ _ hk]

theorem igAfterSec_true (c : Char) (hc : isIdChar c = true) (rest : List Char) :
    igAfterSec ("/".data ++ (c :: rest)) = true := by
  unfold igAfterSec
  rw [litB_append]
  exact idTail_true c hc rest

theorem igSecAlt_true (sec : List Char)
    (hsec : sec = "p".data ∨ sec = "reel".data ∨ sec = "reels".data ∨ sec = "tv".data)
    (c : Char) (hc : isIdChar c = true) (rest : List Char) :
    igSecAlt (sec ++ ("/".data ++ (c :: rest))) = true := by
  have ht := igAfterSec_true c hc rest
  unfold igSecAlt
  rcases hsec with h | h | h | h <;> subst h
  · apply bor_left; apply bor_left; apply bor_left
    rw [litB_append]; exact ht
  · apply bor_left; apply bor_left; apply bor_right
    rw [litB_append]; exact ht
  · apply bor_left; apply bor_right
    rw [litB_append]; exact ht
  · apply bor_right
    rw [litB_append]; exact ht

theorem igAfterScheme_shape (www sec : List Char)
    (hw : www = "www.".data ∨ www = [])
    (hsec : sec = "p".data ∨ sec = "reel".data ∨ sec = "reels".data ∨ sec = "tv".data)
    (c : Char) (hc : isIdChar c = true) (rest : List Char) :
    igAfterScheme (www ++ ("instagram.com/".data ++ (sec ++ ("/".data ++ (c :: rest))))) = true := by
  have hsa := igSecAlt_true sec hsec c hc rest
  unfold igAfterScheme optLitB
  rcases hw with h | h <;> subst h
  · apply bor_left
    rw [litB_append, litB_append]; exact hsa
  · apply bor_right
    rw [List.nil_append, litB_append]; exact hsa

theorem igMatch_shape (scheme www sec : List Char)
    (hs : scheme = "https://".data ∨ scheme = "http://".data ∨ scheme = [])
    (hw : www = "www.".data ∨ www = [])
    (hsec : sec = "p".data ∨ sec = "reel".data ∨ sec = "reels".data ∨ sec = "tv".data)
    (c : Char) (hc : isIdChar c = true) (rest : List Char) :
    igMatchList
      (scheme ++ (www ++ ("instagram.com/".data ++ (sec ++ ("/".data ++ (c :: rest)))))) = true := by
  have h := igAfterScheme_shape www sec hw hsec c hc rest
  unfold igMatchList
  rcases hs with h1 | h1 | h1 <;> subst h1
  · apply bor_left; apply bor_left
    rw [litB_append]; exact h
  · apply bor_left; apply bor_right
    rw [litB_append]; exact h
  · apply bor_right
    rw [List.nil_append]; exact h

/- ------------------------------------------------------------------ -/
/- Helper lemmas about the tag dictionary.                            -/
/- ------------------------------------------------------------------ -/

theorem optionMapOr {α β : Type} (f : α → β) (a b : Option α) :
    (a.or b).map f = (a.map f).or (b.map f) := by
  cases a <;> rfl

theorem dictGet_dictInsert (d : List (String × String)) (k0 v0 k : String) :
    dictGet (dictInsert d k0 v0) k = if k0 = k then some v0 else dictGet d k := by
  induction d with
  | nil => simp [dictInsert, dictGet]
  | cons p rest ih =>
    obtain ⟨k1, v1⟩ := p
    by_cases h1 : k1 = k0
    · subst h1
      by_cases h2 : k1 = k <;> simp [dictInsert, dictGet, h2]
    · by_cases h2 : k1 = k
      · subst h2
        have hk : ¬(k0 = k1) := fun h => h1 h.symm
        simp [dictInsert, h1, dictGet, hk]
      · simp [dictInsert, h1, dictGet, h2, ih]

theorem dictGet_foldl_meta (ps : List (String × String)) (d : List (String × String)) (k : String) :
    dictGet (ps.foldl (fun t pc => dictInsert t (asciiLower pc.1) (htmlUnescape pc.2)) d) k =
      (((ps.map (fun pc => (asciiLower pc.1, htmlUnescape pc.2))).reverse.find?
          (fun p => p.1 == k)).map Prod.snd).or (dictGet d k) := by
  induction ps generalizing d with
  | nil => simp
  | cons p rest ih =>
    rw [List.foldl_cons, ih, dictGet_dictInsert, List.map_cons, List.reverse_cons,
      List.find?_append, optionMapOr]
    cases hf : ((rest.map (fun pc => (asciiLower pc.1, htmlUnescape pc.2))).reverse.find?
        (fun p => p.1 == k)) with
    | some a => simp [Option.or]
    | none =>
      by_cases h : asciiLower p.1 = k
      · have hb : (asciiLower p.1 == k) = true := beq_iff_eq.mpr h
        simp [Option.or, List.find?, hb, h]
      · have hb : (asciiLower p.1 == k) = false := beq_eq_false_iff_ne.mpr h
        simp [Option.or, List.find?, hb, h]

/- ------------------------------------------------------------------ -/
/- Helper lemmas about the media assembler.                           -/
/- ------------------------------------------------------------------ -/

theorem truthy_some (o : Option String) (h : truthy o = true) : ∃ s, o = some s ∧ s ≠ "" := by
  cases o with
  | none => simp [truthy] at h
  | some s => exact ⟨s, rfl, by simpa [truthy, bne_iff_ne] using h⟩

theorem head?_append_left {α : Type} (m l : List α) (h : m ≠ []) :
    (m ++ l).head? = m.head? := by
  cases m with
  | nil => exact absurd rfl h
  | cons a m' => rfl

theorem inlineStep_ne_nil (og : Option String) (m : List MediaItem) (kc : String × String)
    (h : m ≠ []) : inlineStep og m kc ≠ [] := by
  unfold inlineStep
  by_cases h1 : kc.1 = "video_url" <;>
    by_cases h2 : m.all (fun y => y.url != decodeInline kc.2) = true <;>
      simp [h1, h2, h]

theorem inlineStep_head (og : Option String) (m : List MediaItem) (kc : String × String)
    (h : m ≠ []) : (inlineStep og m kc).head? = m.head? := by
  unfold inlineStep
  by_cases h1 : kc.1 = "video_url" <;>
    by_cases h2 : m.all (fun y => y.url != decodeInline kc.2) = true <;>
      simp [h1, h2, head?_append_left _ _ h]

theorem foldl_inlineStep_head (og : Option String) (l : List (String × String))
    (m : List MediaItem) (h : m ≠ []) :
    (l.foldl (inlineStep og) m).head? = m.head? ∧ l.foldl (inlineStep og) m ≠ [] := by
  induction l generalizing m with
  | nil => exact ⟨rfl, h⟩
  | cons kc l ih =>
    rw [List.foldl_cons]
    obtain ⟨ih1, ih2⟩ := ih (inlineStep og m kc) (inlineStep_ne_nil og m kc h)
    exact ⟨ih1.trans (inlineStep_head og m kc h), ih2⟩

theorem mem_inlineStep (og : Option String) (m : List MediaItem) (kc : String × String)
    (x : MediaItem) (h : x ∈ m) : x ∈ inlineStep og m kc := by
  unfold inlineStep
  by_cases h1 : kc.1 = "video_url" <;>
    by_cases h2 : m.all (fun y => y.url != decodeInline kc.2) = true <;>
      simp [h1, h2, h]

theorem mem_foldl_inlineStep (og : Option String) (l : List (String × String))
    (m : List MediaItem) (x : MediaItem) (h : x ∈ m) : x ∈ l.foldl (inlineStep og) m := by
  induction l generalizing m with
  | nil => exact h
  | cons kc l ih => rw [List.foldl_cons]; exact ih _ (mem_inlineStep og m kc x h)

theorem inlineStep_candidate (og : Option String) (m : List MediaItem) (kc : String × String) :
    ∃ x ∈ inlineStep og m kc, x.url = decodeInline kc.2 := by
  by_cases h2 : m.all (fun y => y.url != decodeInline kc.2) = true
  · by_cases h1 : kc.1 = "video_url"
    · refine ⟨⟨"video", decodeInline kc.2, og⟩, ?_, rfl⟩
      simp [inlineStep, h1, h2]
    · refine ⟨⟨"image", decodeInline kc.2, some (decodeInline kc.2)⟩, ?_, rfl⟩
      simp [inlineStep, h1, h2]
  · have hx : ∃ y ∈ m, ¬(y.url != decodeInline kc.2) = true := by
      by_contra hc
      push_neg at hc
      exact h2 (List.all_eq_true.mpr hc)
    obtain ⟨y, hy, hyne⟩ := hx
    have hv : y.url = decodeInline kc.2 := by
      have hf : (y.url != decodeInline kc.2) = false := by
        cases hb : (y.url != decodeInline kc.2) with
        | false => rfl
        | true => exact absurd hb hyne
      exact bne_eq_false_iff_eq.mp hf
    exact ⟨y, mem_inlineStep og m kc y hy, hv⟩

theorem foldl_inlineStep_candidate (og : Option String) (l : List (String × String))
    (m : List MediaItem) :
    ∀ kc ∈ l, ∃ x ∈ l.foldl (inlineStep og) m, x.url = decodeInline kc.2 := by
  induction l generalizing m with
  | nil => intro kc h; exact absurd h (List.not_mem_nil kc)
  | cons a l ih =>
    intro kc h
    rw [List.foldl_cons]
    rcases List.mem_cons.mp h with h | h
    · subst h
      obtain ⟨x, hx, hu⟩ := inlineStep_candidate og m kc
      exact ⟨x, mem_foldl_inlineStep og l _ x hx, hu⟩
    · exact ih (inlineStep og m a) kc h

theorem pairwise_append_one (m : List MediaItem) (it : MediaItem)
    (h : m.Pairwise (fun a b => a.url ≠ b.url)) (hall : ∀ y ∈ m, y.url ≠ it.url) :
    (m ++ [it]).Pairwise (fun a b => a.url ≠ b.url) := by
  rw [List.pairwise_append]
  refine ⟨h, List.pairwise_singleton _ _, ?_⟩
  intro a ha b hb
  rw [List.mem_singleton] at hb
  subst hb
  exact hall a ha

theorem inlineStep_pairwise (og : Option String) (m : List MediaItem) (kc : String × String)
    (h : m.Pairwise (fun a b => a.url ≠ b.url)) :
    (inlineStep og m kc).Pairwise (fun a b => a.url ≠ b.url) := by
  by_cases h2 : m.all (fun y => y.url != decodeInline kc.2) = true
  · have hall : ∀ y ∈ m, y.url ≠ decodeInline kc.2 := fun y hy =>
      bne_iff_ne.mp (List.all_eq_true.mp h2 y hy)
    by_cases h1 : kc.1 = "video_url"
    · have he : inlineStep og m kc = m ++ [⟨"video", decodeInline kc.2, og⟩] := by
        simp [inlineStep, h1, h2]
      rw [he]
      exact pairwise_append_one m _ h hall
    · have he : inlineStep og m kc = m ++ [⟨"image", decodeInline kc.2, some (decodeInline kc.2)⟩] := by
        simp [inlineStep, h1, h2]
      rw [he]
      exact pairwise_append_one m _ h hall
  · have he : inlineStep og m kc = m := by
      by_cases h1 : kc.1 = "video_url" <;> simp [inlineStep, h1, h2]
    rw [he]
    exact h

theorem foldl_inlineStep_pairwise (og : Option String) (l : List (String × String))
    (m : List MediaItem) (h : m.Pairwise (fun a b => a.url ≠ b.url)) :
    (l.foldl (inlineStep og) m).Pairwise (fun a b => a.url ≠ b.url) := by
  induction l generalizing m with
  | nil => exact h
  | cons kc l ih => rw [List.foldl_cons]; exact ih _ (inlineStep_pairwise og m kc h)

theorem primaryMedia_pairwise (tags : List (String × String)) :
    (primaryMedia tags).Pairwise (fun a b => a.url ≠ b.url) := by
  unfold primaryMedia
  by_cases hv : truthy (og_videoOf tags) = true <;>
    by_cases hi : truthy (og_imageOf tags) = true <;>
      simp [hv, hi]

theorem primaryMedia_video (tags : List (String × String)) (v : String)
    (hv : og_videoOf tags = some v) (hne : v ≠ "") :
    primaryMedia tags = [⟨"video", v, og_imageOf tags⟩] := by
  have ht2 : truthy (some v) = true := by simp [truthy, bne_iff_ne, hne]
  have ht : truthy (og_videoOf tags) = true := by rw [hv]; exact ht2
  simp [primaryMedia, ht, hv, ht2]

theorem primaryMedia_image (tags : List (String × String)) (img : String)
    (hv : truthy (og_videoOf tags) = false) (hi : og_imageOf tags = some img) (hne : img ≠ "") :
    primaryMedia tags = [⟨"image", img, some img⟩] := by
  have ht2 : truthy (some img) = true := by simp [truthy, bne_iff_ne, hne]
  have ht : truthy (og_imageOf tags) = true := by rw [hi]; exact ht2
  simp [primaryMedia, hv, ht, hi, ht2]

/-- The per-item invariant of the assembled list (claim C10): the type is
`video` or `image`; image items carry themselves as thumbnail; video items
carry the primary image (or nothing) as thumbnail. -/
def itemInv (og : Option String) (x : MediaItem) : Prop :=
  (x.type = "video" ∨ x.type = "image") ∧ (x.type = "image" → x.thumbnail = some x.url) ∧
    (x.type = "video" → x.thumbnail = og)

theorem primaryMedia_inv (tags : List (String × String)) :
    ∀ x ∈ primaryMedia tags, itemInv (og_imageOf tags) x := by
  intro x hx
  by_cases hv : truthy (og_videoOf tags) = true
  · simp [primaryMedia, hv] at hx
    subst hx
    exact ⟨Or.inl rfl, fun h => by simp at h, fun _ => rfl⟩
  · have hvf : truthy (og_videoOf tags) = false := by
      cases hb : truthy (og_videoOf tags) with
      | false => rfl
      | true => exact absurd hb hv
    by_cases hi : truthy (og_imageOf tags) = true
    · obtain ⟨s, hs, hsne⟩ := truthy_some _ hi
      simp [primaryMedia, hvf, hi] at hx
      subst hx
      refine ⟨Or.inr rfl, fun _ => ?_, fun h => by simp at h⟩
      rw [hs]
      rfl
    · have hif : truthy (og_imageOf tags) = false := by
        cases hb : truthy (og_imageOf tags) with
        | false => rfl
        | true => exact absurd hb hi
      simp [primaryMedia, hvf, hif] at hx

theorem inlineStep_inv (og : Option String) (m : List MediaItem) (kc : String × String)
    (h : ∀ x ∈ m, itemInv og x) : ∀ x ∈ inlineStep og m kc, itemInv og x := by
  intro x hx
  by_cases h1 : kc.1 = "video_url"
  · by_cases h2 : m.all (fun y => y.url != decodeInline kc.2) = true
    · have he : inlineStep og m kc = m ++ [⟨"video", decodeInline kc.2, og⟩] := by
        simp [inlineStep, h1, h2]
      rw [he] at hx
      rcases List.mem_append.mp hx with hx | hx
      · exact h x hx
      · rw [List.mem_singleton] at hx
        subst hx
        exact ⟨Or.inl rfl, fun hh => by simp at hh, fun _ => rfl⟩
    · have he : inlineStep og m kc = m := by simp [inlineStep, h1, h2]
      rw [he] at hx
      exact h x hx
  · by_cases h2 : m.all (fun y => y.url != decodeInline kc.2) = true
    · have he : inlineStep og m kc =
          m ++ [⟨"image", decodeInline kc.2, some (decodeInline kc.2)⟩] := by
        simp [inlineStep, h1, h2]
      rw [he] at hx
      rcases List.mem_append.mp hx with hx | hx
      · exact h x hx
      · rw [List.mem_singleton] at hx
        subst hx
        exact ⟨Or.inr rfl, fun _ => rfl, fun hh => by simp at hh⟩
    · have he : inlineStep og m kc = m := by simp [inlineStep, h1, h2]
      rw [he] at hx
      exact h x hx

theorem foldl_inlineStep_inv (og : Option String) (l : List (String × String))
    (m : List MediaItem) (h : ∀ x ∈ m, itemInv og x) :
    ∀ x ∈ l.foldl (inlineStep og) m, itemInv og x := by
  induction l generalizing m with
  | nil => exact h
  | cons kc l ih => rw [List.foldl_cons]; exact ih _ (inlineStep_inv og m kc h)

/- ------------------------------------------------------------------ -/
/- The claims.                                                        -/
/- ------------------------------------------------------------------ -/

/-- C1: for every fetched HTML body whose extracted tags contain `og:video`
(or, failing that, `twitter:player:stream`), the first item of the assembled
media list is the video item `{type: video, url: that value, thumbnail:
primary image or absent}`, and (being the head of the list, which the
inline-JSON scan only ever appends to) it precedes every item added by the
inline-JSON scan. -/
theorem claim_C1 (html : String) (v : String)
    (hv : og_videoOf (extract_meta_tags html) = some v) (hne : v ≠ "") :
    (assembleMedia (extract_meta_tags html) html).head? =
      some ⟨"video", v, og_imageOf (extract_meta_tags html)⟩ := by
  unfold assembleMedia
  have hp := primaryMedia_video (extract_meta_tags html) v hv hne
  have hh := foldl_inlineStep_head (og_imageOf (extract_meta_tags html)) (inlineFindall html)
    (primaryMedia (extract_meta_tags html)) (by rw [hp]; exact List.cons_ne_nil _ _)
  rw [hh.1, hp]
  rfl

/-- Witness for C1 at the spec's concrete example. -/
theorem claim_C1_witness :
    (assembleMedia
        (extract_meta_tags "<meta property=\"og:video\" content=\"https://x/video.mp4\"><meta property=\"og:image\" content=\"https://x/thumb.jpg\">")
        "<meta property=\"og:video\" content=\"https://x/video.mp4\"><meta property=\"og:image\" content=\"https://x/thumb.jpg\">").head? =
      some ⟨"video", "https://x/video.mp4", some "https://x/thumb.jpg"⟩ := by
  have h := claim_C1
    "<meta property=\"og:video\" content=\"https://x/video.mp4\"><meta property=\"og:image\" content=\"https://x/thumb.jpg\">"
    "https://x/video.mp4" (by decide) (by decide)
  have hi : og_imageOf (extract_meta_tags
      "<meta property=\"og:video\" content=\"https://x/video.mp4\"><meta property=\"og:image\" content=\"https://x/thumb.jpg\">") =
      some "https://x/thumb.jpg" := by decide
  rw [hi] at h
  exact h

/-- C2: the assembled list never contains two items with the same url (so a
repeated `display_url`/`video_url` value, or one equal to an earlier item's
url, is appended only once), and every inline candidate's decoded url is
represented in the final list (so a candidate is skipped only when an item
with that exact url already exists). -/
theorem claim_C2 (tags : List (String × String)) (html : String) :
    (assembleMedia tags html).Pairwise (fun a b => a.url ≠ b.url) ∧
    ∀ kc ∈ inlineFindall html, ∃ x ∈ assembleMedia tags html, x.url = decodeInline kc.2 := by
  unfold assembleMedia
  exact ⟨foldl_inlineStep_pairwise _ _ _ (primaryMedia_pairwise tags),
    foldl_inlineStep_candidate _ _ _⟩

/-- Witness for C2 on HTML containing the same `display_url` value twice. -/
theorem claim_C2_witness :
    (assembleMedia []
        "\"display_url\":\"https:\\/\\/x\\/a.jpg\" \"display_url\":\"https:\\/\\/x\\/a.jpg\"").Pairwise
      (fun a b => a.url ≠ b.url) ∧
    ∃ x ∈ assembleMedia []
        "\"display_url\":\"https:\\/\\/x\\/a.jpg\" \"display_url\":\"https:\\/\\/x\\/a.jpg\"",
      x.url = decodeInline "https:\\/\\/x\\/a.jpg" :=
  ⟨(claim_C2 [] "\"display_url\":\"https:\\/\\/x\\/a.jpg\" \"display_url\":\"https:\\/\\/x\\/a.jpg\"").1,
   (claim_C2 [] "\"display_url\":\"https:\\/\\/x\\/a.jpg\" \"display_url\":\"https:\\/\\/x\\/a.jpg\"").2
     ("display_url", "https:\\/\\/x\\/a.jpg") (by decide)⟩

/-- C3 counterexample: the upstream status 204 is a 2xx status and the body
parses to a non-empty media list, yet `instagram_inspect` fails with error
204 instead of accepting the body (the code tests `status_code != 200`, not
"non-2xx"). -/
theorem claim_C3_counterexample :
    instagram_inspect "https://www.instagram.com/p/abc/"
        (.success 204 "<meta property=\"og:image\" content=\"https://x/pic.jpg\">") =
      .error 204 "Instagram responded with an error." ∧
    assembleMedia
        (extract_meta_tags "<meta property=\"og:image\" content=\"https://x/pic.jpg\">")
        "<meta property=\"og:image\" content=\"https://x/pic.jpg\">" ≠ [] :=
  ⟨by decide, by decide⟩

/-- C3 amended: if the upstream response status differs from 200 (including
2xx statuses other than 200), the request fails with an error carrying that
same status and the generic message; exactly status 200 is accepted, and then
parsing proceeds on the body. -/
theorem claim_C3 (url body : String) (status : Nat) (h : INSTAGRAM_URL_RE_match url = true) :
    (status ≠ 200 →
      instagram_inspect url (.success status body) =
        .error status "Instagram responded with an error.") ∧
    instagram_inspect url (.success 200 body) =
      (if assembleMedia (extract_meta_tags body) body = [] then
        .error 422 "Could not extract media from this URL. It may be private or blocked."
      else .ok (assembleMedia (extract_meta_tags body) body)) := by
  constructor
  · intro hs
    simp [instagram_inspect, h, hs]
  · simp [instagram_inspect, h]

/-- Witness for C3 at upstream status 404. -/
theorem claim_C3_witness :
    instagram_inspect "https://www.instagram.com/p/abc/" (.success 404 "") =
      .error 404 "Instagram responded with an error." :=
  (claim_C3 "https://www.instagram.com/p/abc/" "" 404 (by decide)).1 (by decide)

/-- C4 counterexample: `https://instagram.com/P/abc` has the Instagram
post/reel shape up to letter case (its lower-casing matches), but the URL
pattern — compiled without IGNORECASE — rejects it. -/
theorem claim_C4_counterexample :
    urlShapeCaseInsensitive "https://instagram.com/P/abc" = true ∧
    INSTAGRAM_URL_RE_match "https://instagram.com/P/abc" = false :=
  ⟨by decide, by decide⟩

/-- C4 amended: validation accepts URLs with the scheme omitted (and with
either scheme, with or without `www.`), but matching is case-sensitive: the
host and the section literal must be lower-case exactly as written, and only
the post identifier may use either letter case; arbitrary trailing text is
tolerated (prefix match). -/
theorem claim_C4 (scheme www sec id rest : String)
    (hs : scheme ∈ (["https://", "http://", ""] : List String))
    (hw : www ∈ (["www.", ""] : List String))
    (hsec : sec ∈ (["p", "reel", "reels", "tv"] : List String))
    (hid : id.data ≠ []) (hall : id.data.all isIdChar = true) :
    INSTAGRAM_URL_RE_match (scheme ++ www ++ "instagram.com/" ++ sec ++ "/" ++ id ++ rest) =
      true := by
  obtain ⟨c, cs, hdata⟩ : ∃ c cs, id.data = c :: cs := by
    cases hh : id.data with
    | nil => exact absurd hh hid
    | cons c cs => exact ⟨c, cs, rfl⟩
  have hc : isIdChar c = true :=
    List.all_eq_true.mp hall c (by rw [hdata]; exact List.mem_cons_self c cs)
  have hs' : scheme = "https://" ∨ scheme = "http://" ∨ scheme = "" := by simpa using hs
  have hw' : www = "www." ∨ www = "" := by simpa using hw
  have hsec' : sec = "p" ∨ sec = "reel" ∨ sec = "reels" ∨ sec = "tv" := by simpa using hsec
  have hs2 : scheme.data = "https://".data ∨ scheme.data = "http://".data ∨ scheme.data = [] := by
    rcases hs' with h | h | h <;> rw [h]
    · exact Or.inl rfl
    · exact Or.inr (Or.inl rfl)
    · exact Or.inr (Or.inr rfl)
  have hw2 : www.data = "www.".data ∨ www.data = [] := by
    rcases hw' with h | h <;> rw [h]
    · exact Or.inl rfl
    · exact Or.inr rfl
  have hsec2 : sec.data = "p".data ∨ sec.data = "reel".data ∨ sec.data = "reels".data ∨
      sec.data = "tv".data := by
    rcases hsec' with h | h | h | h <;> rw [h]
    · exact Or.inl rfl
    · exact Or.inr (Or.inl rfl)
    · exact Or.inr (Or.inr (Or.inl rfl))
    · exact Or.inr (Or.inr (Or.inr rfl))
  unfold INSTAGRAM_URL_RE_match
  repeat rw [String.data_append]
  rw [hdata]
  repeat rw [List.append_assoc]
  rw [List.cons_append]
  exact igMatch_shape scheme.data www.data sec.data hs2 hw2 hsec2 c hc (cs ++ rest.data)

/-- Witness for C4: scheme-omitted URL with an upper-case identifier and a
trailing query string. -/
theorem claim_C4_witness :
    INSTAGRAM_URL_RE_match ("" ++ "" ++ "instagram.com/" ++ "tv" ++ "/" ++ "A1-_" ++ "?q=1") =
      true :=
  claim_C4 "" "" "tv" "A1-_" "?q=1" (by decide) (by decide) (by decide) (by decide) (by decide)

/-- C5: every `https://www.instagram.com/p/<id>/` with a non-empty identifier
over letters, digits, underscore and hyphen is accepted; the three
non-matching examples are rejected by the inspect operation with a 400 error
and the exact message, whatever the fetch would have returned (no fetch is
consulted). -/
theorem claim_C5 :
    (∀ id : String, id.data ≠ [] → id.data.all isIdChar = true →
      INSTAGRAM_URL_RE_match ("https://www.instagram.com/p/" ++ id ++ "/") = true) ∧
    (∀ f, instagram_inspect "https://example.com/p/abc" f =
        .error 400 "Please provide a valid Instagram post/reel URL.") ∧
    (∀ f, instagram_inspect "https://instagram.com/notp/abc" f =
        .error 400 "Please provide a valid Instagram post/reel URL.") ∧
    (∀ f, instagram_inspect "" f =
        .error 400 "Please provide a valid Instagram post/reel URL.") := by
  refine ⟨?_, ?_, ?_, ?_⟩
  · intro id hid hall
    obtain ⟨c, cs, hdata⟩ : ∃ c cs, id.data = c :: cs := by
      cases hh : id.data with
      | nil => exact absurd hh hid
      | cons c cs => exact ⟨c, cs, rfl⟩
    have hc : isIdChar c = true :=
      List.all_eq_true.mp hall c (by rw [hdata]; exact List.mem_cons_self c cs)
    have he : ("https://www.instagram.com/p/" : String) =
        "https://" ++ "www." ++ "instagram.com/" ++ "p" ++ "/" := by decide
    unfold INSTAGRAM_URL_RE_match
    rw [he]
    repeat rw [String.data_append]
    rw [hdata]
    repeat rw [List.append_assoc]
    rw [List.cons_append]
    exact igMatch_shape "https://".data "www.".data "p".data (Or.inl rfl) (Or.inl rfl)
      (Or.inl rfl) c hc (cs ++ "/".data)
  · intro f
    have hm : INSTAGRAM_URL_RE_match "https://example.com/p/abc" = false := by decide
    simp [instagram_inspect, hm]
  · intro f
    have hm : INSTAGRAM_URL_RE_match "https://instagram.com/notp/abc" = false := by decide
    simp [instagram_inspect, hm]
  · intro f
    have hm : INSTAGRAM_URL_RE_match "" = false := by decide
    simp [instagram_inspect, hm]

/-- Witness for C5: a concrete accepted URL and a concrete rejection (with a
transport-failure fetch outcome, which is never consulted). -/
theorem claim_C5_witness :
    INSTAGRAM_URL_RE_match ("https://www.instagram.com/p/" ++ "abc" ++ "/") = true ∧
    instagram_inspect "https://example.com/p/abc" .failure =
      .error 400 "Please provide a valid Instagram post/reel URL." :=
  ⟨claim_C5.1 "abc" (by decide) (by decide), claim_C5.2.1 .failure⟩

/-- C6: on HTML with an `og:video` meta tag and a distinct escaped inline
`video_url` fragment, the assembled list is exactly the og:video item followed
by the decoded inline item; and the decoding turns `\/` into `/` and `&`
into `&`. -/
theorem claim_C6 :
    assembleMedia
        (extract_meta_tags "<meta property=\"og:video\" content=\"https://x/video.mp4\"> \"video_url\":\"https:\\/\\/x\\/v2.mp4\"")
        "<meta property=\"og:video\" content=\"https://x/video.mp4\"> \"video_url\":\"https:\\/\\/x\\/v2.mp4\"" =
      [⟨"video", "https://x/video.mp4", none⟩, ⟨"video", "https://x/v2.mp4", none⟩] ∧
    decodeInline "https:\\/\\/x\\/a?b\\u0026c=1" = "https://x/a?b&c=1" :=
  ⟨by decide, by decide⟩

/-- C7: lookup in the extracted-tags mapping returns the value of the last
processed meta-tag match for that (lower-cased) key, where the processed
sequence is all `property`-pattern matches followed by all `name`-pattern
matches — so later matches overwrite earlier ones and a `name`-sourced tag
overwrites a same-named `property`-sourced one. -/
theorem claim_C7 (html : String) (k : String) :
    dictGet (extract_meta_tags html) k =
      (((metaFindall "property=".data html).map
            (fun pc => (asciiLower pc.1, htmlUnescape pc.2)) ++
          (metaFindall "name=".data html).map
            (fun pc => (asciiLower pc.1, htmlUnescape pc.2))).reverse.find?
          (fun p => p.1 == k)).map Prod.snd := by
  unfold extract_meta_tags
  rw [dictGet_foldl_meta, dictGet_foldl_meta]
  rw [List.reverse_append, List.find?_append, optionMapOr]
  cases hB : ((metaFindall "name=".data html).map
      (fun pc => (asciiLower pc.1, htmlUnescape pc.2))).reverse.find? (fun p => p.1 == k) with
  | some a => simp [Option.or]
  | none =>
    cases hA : ((metaFindall "property=".data html).map
        (fun pc => (asciiLower pc.1, htmlUnescape pc.2))).reverse.find? (fun p => p.1 == k) with
    | some a => simp [Option.or, dictGet]
    | none => simp [Option.or, dictGet]

/-- C8: with a valid URL and an accepted (status-200) response, the inspect
operation returns the 422 "could not extract" error exactly when the
assembled media list is empty; and every successful result is a non-empty
list. -/
theorem claim_C8 :
    (∀ url body : String, INSTAGRAM_URL_RE_match url = true →
      (instagram_inspect url (.success 200 body) =
          .error 422 "Could not extract media from this URL. It may be private or blocked." ↔
        assembleMedia (extract_meta_tags body) body = [])) ∧
    ∀ (url : String) (f : FetchOutcome) (l : List MediaItem),
      instagram_inspect url f = .ok l → l ≠ [] := by
  constructor
  · intro url body h
    by_cases he : assembleMedia (extract_meta_tags body) body = [] <;>
      simp [instagram_inspect, h, he]
  · intro url f l hok
    by_cases hm : INSTAGRAM_URL_RE_match url = true
    · cases f with
      | failure => simp [instagram_inspect, hm] at hok
      | success status body =>
        by_cases hs : status = 200
        · subst hs
          by_cases he : assembleMedia (extract_meta_tags body) body = []
          · simp [instagram_inspect, hm, he] at hok
          · simp [instagram_inspect, hm, he] at hok
            rw [← hok]
            exact he
        · simp [instagram_inspect, hm, hs] at hok
    · have hm' : INSTAGRAM_URL_RE_match url = false := by
        cases hb : INSTAGRAM_URL_RE_match url with
        | false => rfl
        | true => exact absurd hb hm
      simp [instagram_inspect, hm'] at hok

/-- Witness for C8: an empty body yields the 422 error. -/
theorem claim_C8_witness :
    instagram_inspect "https://www.instagram.com/p/abc/" (.success 200 "") =
      .error 422 "Could not extract media from this URL. It may be private or blocked." :=
  (claim_C8.1 "https://www.instagram.com/p/abc/" "" (by decide)).mpr (by decide)

/-- C9: when the extracted tags yield a primary image but no (truthy) primary
video, the list before the inline scan is exactly the single image item with
itself as thumbnail; and on the spec's single-og:image HTML the final result
is exactly that item. -/
theorem claim_C9 :
    (∀ (html : String) (img : String),
      truthy (og_videoOf (extract_meta_tags html)) = false →
      og_imageOf (extract_meta_tags html) = some img → img ≠ "" →
      primaryMedia (extract_meta_tags html) = [⟨"image", img, some img⟩]) ∧
    assembleMedia
        (extract_meta_tags "<meta property=\"og:image\" content=\"https://x/pic.jpg\">")
        "<meta property=\"og:image\" content=\"https://x/pic.jpg\">" =
      [⟨"image", "https://x/pic.jpg", some "https://x/pic.jpg"⟩] := by
  constructor
  · intro html img h1 h2 h3
    exact primaryMedia_image _ img h1 h2 h3
  · decide

/-- Witness for C9 at the spec's concrete example. -/
theorem claim_C9_witness :
    primaryMedia (extract_meta_tags "<meta property=\"og:image\" content=\"https://x/pic.jpg\">") =
      [⟨"image", "https://x/pic.jpg", some "https://x/pic.jpg"⟩] :=
  claim_C9.1 "<meta property=\"og:image\" content=\"https://x/pic.jpg\">" "https://x/pic.jpg"
    (by decide) (by decide) (by decide)

/-- C10: every item of an assembled list has type `video` or `image`; image
items carry their own url as thumbnail; video items carry the primary image
(og:image falling back to twitter:image), or nothing when no such tag exists,
as thumbnail. -/
theorem claim_C10 (tags : List (String × String)) (html : String) :
    ∀ x ∈ assembleMedia tags html,
      (x.type = "video" ∨ x.type = "image") ∧ (x.type = "image" → x.thumbnail = some x.url) ∧
        (x.type = "video" → x.thumbnail = og_imageOf tags) := by
  intro x hx
  exact foldl_inlineStep_inv (og_imageOf tags) (inlineFindall html) (primaryMedia tags)
    (primaryMedia_inv tags) x hx

/-- Witness for C10 at a concrete tag map and item. -/
theorem claim_C10_witness :
    ((⟨"image", "https://x/pic.jpg", some "https://x/pic.jpg"⟩ : MediaItem).type = "video" ∨
        (⟨"image", "https://x/pic.jpg", some "https://x/pic.jpg"⟩ : MediaItem).type = "image") ∧
      ((⟨"image", "https://x/pic.jpg", some "https://x/pic.jpg"⟩ : MediaItem).type = "image" →
        (⟨"image", "https://x/pic.jpg", some "https://x/pic.jpg"⟩ : MediaItem).thumbnail =
          some (⟨"image", "https://x/pic.jpg", some "https://x/pic.jpg"⟩ : MediaItem).url) ∧
      ((⟨"image", "https://x/pic.jpg", some "https://x/pic.jpg"⟩ : MediaItem).type = "video" →
        (⟨"image", "https://x/pic.jpg", some "https://x/pic.jpg"⟩ : MediaItem).thumbnail =
          og_imageOf [("og:image", "https://x/pic.jpg")]) :=
  claim_C10 [("og:image", "https://x/pic.jpg")] ""
    ⟨"image", "https://x/pic.jpg", some "https://x/pic.jpg"⟩ (by decide)
